import Mathlib

/-!
Verification of the `deno_cache_dir` specification against a shallow Lean
embedding of its TypeScript sources.  Strings are modelled as `List Char`
(JS strings) or `List Nat` (byte arrays); machine words are `Nat` reduced
modulo `2 ^ 32` where the source uses 32-bit arithmetic.
-/

deriving instance DecidableEq for Except

namespace DenoCacheDir

/-! ## SHA-256 (the hashing primitive used by `util.ts#hash`)

A direct executable implementation of FIPS 180-4 SHA-256 over byte lists.
32-bit words are `Nat` values kept below `2 ^ 32` by explicit reduction. -/

def m32 (x : Nat) : Nat := x % 4294967296

def rotr (n x : Nat) : Nat := m32 ((x >>> n) ||| (x <<< (32 - n)))

def bsig0 (x : Nat) : Nat := (rotr 2 x) ^^^ (rotr 13 x) ^^^ (rotr 22 x)

def bsig1 (x : Nat) : Nat := (rotr 6 x) ^^^ (rotr 11 x) ^^^ (rotr 25 x)

def ssig0 (x : Nat) : Nat := (rotr 7 x) ^^^ (rotr 18 x) ^^^ (x >>> 3)

def ssig1 (x : Nat) : Nat := (rotr 17 x) ^^^ (rotr 19 x) ^^^ (x >>> 10)

def shaK : List Nat :=
  [1116352408, 1899447441, 3049323471, 3921009573, 961987163,
   1508970993, 2453635748, 2870763221, 3624381080, 310598401,
   607225278, 1426881987, 1925078388, 2162078206, 2614888103,
   3248222580, 3835390401, 4022224774, 264347078, 604807628,
   770255983, 1249150122, 1555081692, 1996064986, 2554220882,
   2821834349, 2952996808, 3210313671, 3336571891, 3584528711,
   113926993, 338241895, 666307205, 773529912, 1294757372,
   1396182291, 1695183700, 1986661051, 2177026350, 2456956037,
   2730485921, 2820302411, 3259730800, 3345764771, 3516065817,
   3600352804, 4094571909, 275423344, 430227734, 506948616,
   659060556, 883997877, 958139571, 1322822218, 1537002063,
   1747873779, 1955562222, 2024104815, 2227730452, 2361852424,
   2428436474, 2756734187, 3204031479, 3329325298]

def shaInit : List Nat :=
  [1779033703, 3144134277, 1013904242, 2773480762, 1359893119,
   2600822924, 528734635, 1541459225]

def bytesOfNat64 (n : Nat) : List Nat :=
  [(n >>> 56) &&& 255, (n >>> 48) &&& 255, (n >>> 40) &&& 255,
   (n >>> 32) &&& 255, (n >>> 24) &&& 255, (n >>> 16) &&& 255,
   (n >>> 8) &&& 255, n &&& 255]

def shaPad (msg : List Nat) : List Nat :=
  let len := msg.length
  let padZeros := (119 - (len % 64)) % 64
  msg ++ [0x80] ++ List.replicate padZeros 0 ++ bytesOfNat64 (len * 8)

def toWords : List Nat → List Nat
  | a :: b :: c :: d :: rest =>
      ((a <<< 24) ||| (b <<< 16) ||| (c <<< 8) ||| d) :: toWords rest
  | _ => []

def chunkGo : List Nat → List Nat → List (List Nat)
  | [], acc => if acc.isEmpty then [] else [acc.reverse]
  | x :: xs, acc =>
      if (x :: acc).length = 16 then (x :: acc).reverse :: chunkGo xs []
      else chunkGo xs (x :: acc)

def chunk16 (l : List Nat) : List (List Nat) := chunkGo l []

def msgSchedule (block : List Nat) : List Nat :=
  (List.range 48).foldl
    (fun ws i =>
      ws ++ [m32 (ssig1 (ws.getD (i + 14) 0) + ws.getD (i + 9) 0 +
                  ssig0 (ws.getD (i + 1) 0) + ws.getD i 0)])
    block

def shaRound (w : List Nat) (st : List Nat) (t : Nat) : List Nat :=
  match st with
  | [a, b, c, d, e, f, g, h] =>
      let ch := (e &&& f) ^^^ ((4294967295 ^^^ e) &&& g)
      let maj := (a &&& b) ^^^ (a &&& c) ^^^ (b &&& c)
      let t1 := m32 (h + bsig1 e + ch + shaK.getD t 0 + w.getD t 0)
      let t2 := m32 (bsig0 a + maj)
      [m32 (t1 + t2), a, b, c, m32 (d + t1), e, f, g]
  | other => other

def compressBlock (h : List Nat) (block : List Nat) : List Nat :=
  let w := msgSchedule block
  let st := (List.range 64).foldl (shaRound w) h
  List.zipWith (fun x y => m32 (x + y)) h st

def sha256Bytes (msg : List Nat) : List Nat :=
  let blocks := chunk16 (toWords (shaPad msg))
  let hfin := blocks.foldl compressBlock shaInit
  hfin.flatMap
    (fun wrd => [(wrd >>> 24) &&& 255, (wrd >>> 16) &&& 255,
                 (wrd >>> 8) &&& 255, wrd &&& 255])

def hexDigits : List Char := "0123456789abcdef".toList

def bytesToHex (bs : List Nat) : List Char :=
  bs.flatMap (fun b => [hexDigits.getD (b / 16) 'x', hexDigits.getD (b % 16) 'x'])

/-- UTF-8 encoding of a Unicode code point, as performed by the platform
text encoder when hashing JS strings. -/
def utf8EncodeChar (n : Nat) : List Nat :=
  if n < 128 then [n]
  else if n < 2048 then [192 + n / 64, 128 + n % 64]
  else if n < 65536 then [224 + n / 4096, 128 + (n / 64) % 64, 128 + n % 64]
  else [240 + n / 262144, 128 + (n / 4096) % 64, 128 + (n / 64) % 64, 128 + n % 64]

def utf8Encode (s : List Char) : List Nat :=
  s.flatMap (fun c => utf8EncodeChar c.toNat)

/-- `util.ts` — `hash(value)`: sha256 hex digest of a string. -/
def hash (value : List Char) : List Char :=
  bytesToHex (sha256Bytes (utf8Encode value))

/-- `hash` packaged on `String`. -/
def hashStr (value : String) : String :=
  String.mk (DenoCacheDir.hash value.toList)

/-- JS `s.toLowerCase()` — ASCII lowercasing (the strings it is applied
to here, header names and hex digests, are ASCII). -/
def jsToLowerCase (s : String) : String :=
  String.mk (s.toList.map (fun c =>
    if 'A' ≤ c ∧ c ≤ 'Z' then Char.ofNat (c.toNat + 32) else c))

/-! ## Parsed URLs

A parsed WHATWG URL as the TypeScript code observes it through the `URL`
class: `protocol` carries the trailing `":"`, `port` is `""` when absent,
`search` is `""` or starts with `"?"`, `host` is `hostname[":" port]`. -/

structure JsUrl where
  protocol : String
  hostname : String
  port : String
  pathname : String
  search : String
deriving DecidableEq

def JsUrl.host (u : JsUrl) : String :=
  if u.port = "" then u.hostname else u.hostname ++ ":" ++ u.port

/-- The URL's serialization (`url.toString()` / `url.href`). -/
def JsUrl.href (u : JsUrl) : String :=
  u.protocol ++ "//" ++ u.host ++ u.pathname ++ u.search

/-! ## `util.ts` — `baseUrlToFilename` / `urlToFilename` (part_007) -/

inductive CacheError
  | unsupportedUrl (scheme : String)
  | checksumMismatch (expected actual : String)
deriving DecidableEq

/-- Path join as used on the cache filename components (posix `join`). -/
def joinPath (components : List String) : String :=
  String.intercalate "/" components

/-- JS `s.replace(d, "")` for a one-character pattern: removes the first
occurrence of `d`. -/
def removeFirstChar (d : Char) : List Char → List Char
  | [] => []
  | c :: rest => if c = d then rest else c :: removeFirstChar d rest

/-- `url.protocol.replace(":", "")`. -/
def jsRemoveFirst (s : String) (d : Char) : String :=
  String.mk (removeFirstChar d s.toList)

/-- `util.ts#baseUrlToFilename`; the `TypeError` thrown for other schemes
is modelled as `CacheError.unsupportedUrl`. -/
def baseUrlToFilename (url : JsUrl) : Except CacheError (List String) :=
  let scheme := jsRemoveFirst url.protocol ':'
  let out := [scheme]
  if scheme = "http" ∨ scheme = "https" then
    let host := url.hostname
    let hostPort := url.port
    .ok (out ++ [if hostPort ≠ "" then host ++ "_PORT" ++ hostPort else host])
  else if scheme = "data" ∨ scheme = "blob" then
    .ok out
  else
    .error (.unsupportedUrl scheme)

/-- `util.ts#urlToFilename`.  Note `url.search` already carries the
leading `"?"`, and the code appends a further `"?"` in front of it. -/
def urlToFilename (url : JsUrl) : Except CacheError String := do
  let cacheFilename ← baseUrlToFilename url
  let restStr0 := url.pathname
  let query := url.search
  let restStr := if query ≠ "" then restStr0 ++ "?" ++ query else restStr0
  let hashedFilename := hashStr restStr
  return joinPath (cacheFilename ++ [hashedFilename])

/-! ## The destination-aware encoder of the current cache -/

/-- `RequestDestination` — `util.ts#destinationToWasmNumber` maps
`"script"` to `0` and `"json"` to `1`. -/
inductive Destination
  | script
  | json
deriving DecidableEq

def destinationToWasmNumber : Destination → Nat
  | .script => 0
  | .json => 1

/-- Modelled from the spec: the Rust `url_to_filename(url, destination)`
exported by the wasm module is not under `src/`.  Per spec §3/§4.1 the
final segment is the hex SHA-256 of `path + ("?" + query if present)`
concatenated with the destination tag, over the scheme/host directories
of `baseUrlToFilename`; other schemes fail with `UnsupportedUrl`.  The
destination tag is empty for `Script` and the literal `"json"` for
`Json`, which reproduces the repository's `disk_cache_test.ts` vectors. -/
def url_to_filename (url : JsUrl) (destination : Destination) :
    Except CacheError String := do
  let base ← baseUrlToFilename url
  let restStr := url.pathname ++ url.search
  let destSuffix := match destination with | .script => "" | .json => "json"
  return joinPath (base ++ [hashStr (restStr ++ destSuffix)])

/-! ## The global cache store and the `http_cache.ts` wrapper

The store itself (`GlobalHttpCache` in the Rust `rs_lib`) is not under
`src/`; it is modelled from spec §4.4: `set` writes the content file and
a metadata sidecar (suffix `.metadata.json`; the hashed content filename
has no extension) at the encoded path, `get` reads both and optionally
verifies a SHA-256 checksum case-insensitively. -/

structure Metadata where
  url : String
  headers : List (String × String)
deriving DecidableEq

inductive FsFile
  | content (bytes : List Nat)
  | metadata (m : Metadata)
deriving DecidableEq

def Fs : Type := String → Option FsFile

def Fs.empty : Fs := fun _ => none

def Fs.write (fs : Fs) (p : String) (f : FsFile) : Fs :=
  fun q => if q = p then some f else fs q

structure HttpCacheEntry where
  headers : List (String × String)
  content : List Nat
deriving DecidableEq

/-- Modelled from the spec: Rust `GlobalHttpCache::set`. -/
def GlobalHttpCache.set (fs : Fs) (url : JsUrl) (destination : Destination)
    (headers : List (String × String)) (content : List Nat) :
    Except CacheError Fs := do
  let p ← url_to_filename url destination
  let fs1 := fs.write p (.content content)
  return fs1.write (p ++ ".metadata.json") (.metadata ⟨url.href, headers⟩)

/-- Modelled from the spec: Rust `GlobalHttpCache::get`; absence of the
sidecar or the content file is a miss, a supplied checksum is compared
case-insensitively against the hex SHA-256 of the content. -/
def GlobalHttpCache.get (fs : Fs) (url : JsUrl) (destination : Destination)
    (checksum : Option String) : Except CacheError (Option HttpCacheEntry) := do
  let p ← url_to_filename url destination
  match fs (p ++ ".metadata.json"), fs p with
  | some (.metadata m), some (.content bytes) =>
      match checksum with
      | none => return some ⟨m.headers, bytes⟩
      | some expected =>
          let actual := String.mk (bytesToHex (sha256Bytes bytes))
          if jsToLowerCase expected = actual then return some ⟨m.headers, bytes⟩
          else throw (.checksumMismatch expected actual)
  | _, _ => return none

/-- Modelled from the spec: Rust `GlobalHttpCache::get_headers`. -/
def GlobalHttpCache.getHeaders (fs : Fs) (url : JsUrl)
    (destination : Destination) : Except CacheError (Option (List (String × String))) := do
  let p ← url_to_filename url destination
  match fs (p ++ ".metadata.json") with
  | some (.metadata m) => return some m.headers
  | _ => return none

/-- `http_cache.ts#HttpCache` wrapper state: `readOnly` starts as the
construction option and is resolved on the first `set` by probing the
write permission (`Deno.permissions.querySync`). -/
structure HttpCacheTs where
  readOnly : Option Bool
deriving DecidableEq

/-- The `readOnly` value `set` acts on: the stored flag, or the result of
probing whether write permission is denied. -/
def HttpCacheTs.resolveReadOnly (c : HttpCacheTs) (writePermissionDenied : Bool) : Bool :=
  match c.readOnly with
  | some b => b
  | none => writePermissionDenied

/-- `http_cache.ts#HttpCache.set` over a global backing store: in
read-only mode it returns silently without writing. -/
def HttpCacheTs.set (c : HttpCacheTs) (writePermissionDenied : Bool) (fs : Fs)
    (url : JsUrl) (destination : Destination)
    (headers : List (String × String)) (content : List Nat) :
    Except CacheError (HttpCacheTs × Fs) :=
  let ro := c.resolveReadOnly writePermissionDenied
  if ro then .ok ({ readOnly := some ro }, fs)
  else do
    let fs' ← GlobalHttpCache.set fs url destination headers content
    return ({ readOnly := some ro }, fs')

/-- `http_cache.ts#HttpCache.get` over a global backing store. -/
def HttpCacheTs.get (fs : Fs) (url : JsUrl) (destination : Destination)
    (checksum : Option String) : Except CacheError (Option HttpCacheEntry) :=
  GlobalHttpCache.get fs url destination checksum

/-! ## The local (vendor) overlay -/

/-- Modelled from the spec: the Rust `LocalHttpCache` state — a vendor
layout whose manifest keeps the original URL and headers per entry
(keyed here by the original URL and destination, since path decoding is
lossy), backed by the global store's filesystem. -/
structure LocalCacheState where
  localMap : List ((JsUrl × Destination) × HttpCacheEntry)
  globalFs : Fs

def lookupLocal (m : List ((JsUrl × Destination) × HttpCacheEntry))
    (k : JsUrl × Destination) : Option HttpCacheEntry :=
  (m.find? (fun e => e.1 = k)).map (·.2)

/-- Modelled from the spec: `LocalHttpCache::get` — local hit wins and
ignores the checksum; on a miss, when `allow_global_to_local_copy` is
set (it is `!readOnly` at construction) the entry is copied from the
global store, otherwise the result is absent and nothing is written. -/
def LocalHttpCache.get (st : LocalCacheState) (allowGlobalToLocalCopy : Bool)
    (url : JsUrl) (destination : Destination) (checksum : Option String) :
    Except CacheError (Option HttpCacheEntry × LocalCacheState) :=
  match lookupLocal st.localMap (url, destination) with
  | some e => .ok (some e, st)
  | none =>
      if allowGlobalToLocalCopy then do
        match ← GlobalHttpCache.get st.globalFs url destination checksum with
        | some e =>
            .ok (some e, { st with localMap := ((url, destination), e) :: st.localMap })
        | none => .ok (none, st)
      else .ok (none, st)

/-- Modelled from the spec: `LocalHttpCache::set` writes to the local
layout and manifest. -/
def LocalHttpCache.set (st : LocalCacheState) (url : JsUrl)
    (destination : Destination) (headers : List (String × String))
    (content : List Nat) : LocalCacheState :=
  { st with localMap := ((url, destination), ⟨headers, content⟩) :: st.localMap }

/-- `http_cache.ts#HttpCache.set` over a local backing store. -/
def HttpCacheTs.setLocal (c : HttpCacheTs) (writePermissionDenied : Bool)
    (st : LocalCacheState) (url : JsUrl) (destination : Destination)
    (headers : List (String × String)) (content : List Nat) :
    HttpCacheTs × LocalCacheState :=
  let ro := c.resolveReadOnly writePermissionDenied
  if ro then ({ readOnly := some ro }, st)
  else ({ readOnly := some ro }, LocalHttpCache.set st url destination headers content)

/-! ## `auth_tokens.ts` (part_000, 2024 version)

JS strings are modelled as `List Char`; `a.endsWith(b)` is `b` being a
suffix of `a`, `a.split(d)` is splitting on the single-character
delimiters used at the call sites. -/

inductive AuthToken
  | bearer (host : List Char) (token : List Char)
  | basic (host : List Char) (username password : List Char)
deriving DecidableEq

def AuthToken.host : AuthToken → List Char
  | .bearer h _ => h
  | .basic h _ _ => h

/-- `value.split(d)` for a one-character separator `d`. -/
def splitOnChar (d : Char) : List Char → List (List Char)
  | [] => [[]]
  | c :: rest =>
      let r := splitOnChar d rest
      if c = d then [] :: r
      else
        match r with
        | h :: t => (c :: h) :: t
        | [] => [[c]]

/-- `auth_tokens.ts#splitLast`. -/
def splitLast (value : List Char) (delimiter : Char) : List Char × List Char :=
  let split := splitOnChar delimiter value
  (List.intercalate [delimiter] split.dropLast, split.getLastD [])

def base64Alphabet : List Char :=
  "ABCDEFGHIJKLMNOPQRSTUVWXYZabcdefghijklmnopqrstuvwxyz0123456789+/".toList

def b64c (n : Nat) : Char := base64Alphabet.getD n 'A'

def b64OfBytes : List Nat → List Char
  | [] => []
  | [a] => [b64c (a / 4), b64c ((a % 4) * 16), '=', '=']
  | [a, b] => [b64c (a / 4), b64c ((a % 4) * 16 + b / 16), b64c ((b % 16) * 4), '=']
  | a :: b :: c :: rest =>
      b64c (a / 4) :: b64c ((a % 4) * 16 + b / 16) ::
      b64c ((b % 16) * 4 + c / 64) :: b64c (c % 64) :: b64OfBytes rest

/-- The platform `btoa` on a latin1 string. -/
def btoa (s : List Char) : List Char := b64OfBytes (s.map Char.toNat)

/-- `auth_tokens.ts#tokenAsValue`. -/
def tokenAsValue : AuthToken → List Char
  | .basic _ username password =>
      "Basic ".toList ++ btoa (username ++ [':'] ++ password)
  | .bearer _ token => "Bearer ".toList ++ token

/-- The `AuthTokens` constructor: split on `";"`, keep non-empty items;
the `@`-presence test is on the whole input string, as in the source;
malformed items are discarded. -/
def parseAuthTokens (tokensStr : List Char) : List AuthToken :=
  ((splitOnChar ';' tokensStr).filter (fun s => 0 < s.length)).filterMap
    (fun tokenStr =>
      if tokensStr.contains '@' then
        let (token, host) := splitLast tokenStr '@'
        if token.contains ':' then
          let (username, password) := splitLast token ':'
          some (.basic host username password)
        else some (.bearer host token)
      else none)

/-- `a.endsWith(b)` for JS strings. -/
def jsEndsWith (a b : List Char) : Bool := b.isSuffixOf a

/-- `AuthTokens.get(specifier)`: the first token whose `host` satisfies
`token.host.endsWith(specifier.host)`; `specifierHost` is the request
URL's `host` (hostname plus any explicit port). -/
def authTokensGet : List AuthToken → List Char → Option (List Char)
  | [], _ => none
  | token :: rest, specifierHost =>
      if jsEndsWith token.host specifierHost then some (tokenAsValue token)
      else authTokensGet rest specifierHost

/-! ## `stripHashbang` — both versions in `file_fetcher.ts` -/

/-- Index of the first `"\n"` (JS `indexOf` without the `-1` encoding). -/
def idxOfNewline : List Char → Option Nat
  | [] => none
  | c :: rest => if c = '\n' then some 0 else (idxOfNewline rest).map (· + 1)

/-- `value.startsWith("#!")` (for the byte version, `value[0] === 35`
and `value[1] === 33`). -/
def startsWithHashbang : List Char → Bool
  | c1 :: c2 :: _ => c1 = '#' && c2 = '!'
  | _ => false

/-- The older string version (`file_fetcher.ts` 2022):
`value.startsWith("#!") ? value.slice(value.indexOf("\n")) : value`.
When there is no newline, `indexOf` is `-1` and `slice(-1)` keeps only
the final character; otherwise the newline itself is kept. -/
def stripHashbang (value : List Char) : List Char :=
  if startsWithHashbang value then
    match idxOfNewline value with
    | some i => value.drop i
    | none => value.drop (value.length - 1)
  else value

/-- The newer byte version (`file_fetcher.ts` 2024, lines 325–341),
modelled on the decoded text: if the content has a hashbang and a
newline at a positive index, everything through that newline is
dropped; otherwise the content is returned unchanged. -/
def stripHashbangBytes (value : List Char) : List Char :=
  if startsWithHashbang value then
    match idxOfNewline value with
    | some lineIndex => if 0 < lineIndex then value.drop (lineIndex + 1) else value
    | none => value
  else value

/-! ## `file_fetcher.ts` — the `FileFetcher` (2024 version, lines 257–632)

URLs are modelled as their serializations (`Url.str`); the in-process
memo and the HTTP cache, keyed in the source by `specifier.toString()`,
are keyed by `Url` (serialization is injective on parsed URLs).  The
external HTTP client (`fetchWithRetries` at the call sites) is an oracle
`net : Url → Except FetchError FetchResponse` that already follows
redirects, so `response.url` may differ from the requested URL; the
model's client is insensitive to the composed request headers
(`if-none-match`, `authorization`), whose composition reads no fetcher
state. -/

structure Url where
  str : String
deriving DecidableEq

def Url.toStr (u : Url) : String := u.str

/-- `url.protocol`: the scheme of the serialization plus `":"`. -/
def Url.protocol (u : Url) : String :=
  String.mk (u.str.toList.takeWhile (· ≠ ':') ++ [':'])

/-- `new URL(location, base)` at the fetcher's call sites: every
`location` it stores or follows is an absolute URL serialization
(`response.url`, or a redirect's own serialization), whose parse is that
URL itself; relative resolution is the external URL library's concern
and is not modelled. -/
def resolveUrl (location : String) (_base : Url) : Url := ⟨location⟩

/-- JS plain-object property update (last assignment wins). -/
def setHeader (hs : List (String × String)) (k v : String) : List (String × String) :=
  if hs.any (fun p => p.1 = k) then hs.map (fun p => if p.1 = k then (k, v) else p)
  else hs ++ [(k, v)]

/-- JS plain-object property read. -/
def getHeader (hs : List (String × String)) (k : String) : Option String :=
  (hs.find? (fun p => p.1 = k)).map (·.2)

/-- The header-lowercasing loop `headers[key.toLowerCase()] = value`. -/
def lowerHeaders (hs : List (String × String)) : List (String × String) :=
  hs.foldl (fun acc p => setHeader acc (jsToLowerCase p.1) p.2) []

inductive LoadResponse
  | module (specifier : String) (headers : Option (List (String × String)))
      (content : List Nat)
  | redirect (specifier : String)
deriving DecidableEq

inductive FetchError
  | unsupportedScheme (scheme : String)
  | notFound (specifier : String)
  | http (status : Nat) (statusText : String)
  | tooManyRedirects (specifier : String)
  | permissionDenied (specifier : String)
  | checksumMismatch (expected actual : String)
  | network (message : String)
deriving DecidableEq

/-- What the external client hands back: the final (post-redirect) URL,
the status, and the response headers and body. `ok` is status 200–299. -/
structure FetchResponse where
  url : Url
  status : Nat
  statusText : String
  headers : List (String × String)
  body : List Nat
deriving DecidableEq

def FetchResponse.ok (r : FetchResponse) : Bool :=
  decide (200 ≤ r.status) && decide (r.status < 300)

inductive CacheSetting
  | only
  | reload
  | use
  | list (values : List String)
deriving DecidableEq

/-- `file_fetcher.ts#shouldUseCache`. -/
def shouldUseCache (cacheSetting : CacheSetting) (specifier : Url) : Bool :=
  match cacheSetting with
  | .only => true
  | .use => true
  | .reload => false
  | .list values => !(values.any (fun value => specifier.toStr.startsWith value))

def SUPPORTED_SCHEMES : List String := ["data:", "blob:", "file:", "http:", "https:"]

/-- `file_fetcher.ts#getValidatedScheme`. -/
def getValidatedScheme (specifier : Url) : Except FetchError String :=
  let scheme := specifier.protocol
  if SUPPORTED_SCHEMES.contains scheme then .ok scheme
  else .error (.unsupportedScheme scheme)

/-- The fetcher's view of its `HttpCache` collaborator in this version:
entries keyed by URL holding `{headers, content}`. -/
def CacheMap : Type := Url → Option (List (String × String) × List Nat)

def CacheMap.empty : CacheMap := fun _ => none

def CacheMap.set (m : CacheMap) (u : Url) (headers : List (String × String))
    (content : List Nat) : CacheMap :=
  fun v => if v = u then some (headers, content) else m v

/-- `HttpCache.get(url, options)` as the fetcher sees it: a hit with a
`checksum` option verifies the hex SHA-256 of the content. -/
def cacheMapGet (m : CacheMap) (u : Url) (checksum : Option String) :
    Except FetchError (Option HttpCacheEntry) :=
  match m u with
  | none => .ok none
  | some (headers, content) =>
      match checksum with
      | none => .ok (some ⟨headers, content⟩)
      | some expected =>
          let actual := String.mk (bytesToHex (sha256Bytes content))
          if jsToLowerCase expected = actual then .ok (some ⟨headers, content⟩)
          else .error (.checksumMismatch expected actual)

structure FetchEnv where
  net : Url → Except FetchError FetchResponse
  localFile : Url → Option (List Char)
  allowRemote : Bool
  cacheSetting : CacheSetting

structure FetcherState where
  memo : Url → Option LoadResponse
  httpCache : CacheMap

def memoSet (m : Url → Option LoadResponse) (u : Url) (r : LoadResponse) :
    Url → Option LoadResponse :=
  fun v => if v = u then some r else m v

/-- `file_fetcher.ts#fetchLocal` (file scheme): absent or unreadable
file yields absent; the content is hashbang-stripped.  `localFile`
provides the file's decoded text. -/
def fetchLocal (env : FetchEnv) (specifier : Url) :
    Except FetchError (Option LoadResponse) :=
  match env.localFile specifier with
  | none => .ok none
  | some text =>
      .ok (some (.module specifier.toStr none
        (utf8Encode (stripHashbangBytes text))))

/-- `FileFetcher.fetchCachedOnce`. -/
def fetchCachedOnce (st : FetcherState) (specifier : Url)
    (checksum : Option String) : Except FetchError (Option LoadResponse) := do
  match ← cacheMapGet st.httpCache specifier checksum with
  | none => return none
  | some cacheEntry =>
      match getHeader cacheEntry.headers "location" with
      | some location =>
          if 0 < location.length then
            return some (.redirect (resolveUrl location specifier).toStr)
          else
            return some (.module specifier.toStr (some cacheEntry.headers)
              cacheEntry.content)
      | none =>
          return some (.module specifier.toStr (some cacheEntry.headers)
            cacheEntry.content)

/-- `FileFetcher.#fetchRemoteOnce`: cache probe under
`shouldUseCache`, the `"only"` guard, the external call, the synthetic
redirect record when `response.url` differs, persistence of the final
entry with lowercased headers, and the optional checksum verification. -/
def fetchRemoteOnce (env : FetchEnv) (st : FetcherState) (specifier : Url)
    (cacheSetting : CacheSetting) (checksum : Option String) :
    FetcherState × Except FetchError (Option LoadResponse) :=
  let cachedResult :=
    if shouldUseCache cacheSetting specifier then
      fetchCachedOnce st specifier checksum
    else .ok none
  match cachedResult with
  | .error e => (st, .error e)
  | .ok (some response) => (st, .ok (some response))
  | .ok none =>
      if cacheSetting = .only then (st, .error (.notFound specifier.toStr))
      else
        match env.net specifier with
        | .error e => (st, .error e)
        | .ok response =>
            if response.ok then
              let st1 :=
                if specifier ≠ response.url then
                  { st with httpCache :=
                      (st.httpCache.set specifier [("location", response.url.toStr)] []) }
                else st
              let url := response.url
              let content := response.body
              let headers := lowerHeaders response.headers
              let st2 := { st1 with httpCache := st1.httpCache.set url headers content }
              match checksum with
              | some expected =>
                  let actualChecksum := String.mk (bytesToHex (sha256Bytes content))
                  if actualChecksum ≠ expected then
                    (st2, .error (.checksumMismatch expected actualChecksum))
                  else (st2, .ok (some (.module url.toStr (some headers) content)))
              | none => (st2, .ok (some (.module url.toStr (some headers) content)))
            else if response.status = 404 then (st, .ok none)
            else (st, .error (.http response.status response.statusText))

/-- `FileFetcher.#fetchBlobDataUrl`. -/
def fetchBlobDataUrl (env : FetchEnv) (st : FetcherState) (specifier : Url)
    (cacheSetting : CacheSetting) (checksum : Option String) :
    FetcherState × Except FetchError LoadResponse :=
  match fetchCachedOnce st specifier checksum with
  | .error e => (st, .error e)
  | .ok (some cached) => (st, .ok cached)
  | .ok none =>
      if cacheSetting = .only then (st, .error (.notFound specifier.toStr))
      else
        match env.net specifier with
        | .error e => (st, .error e)
        | .ok response =>
            let content := response.body
            let headers := lowerHeaders response.headers
            let st1 := { st with httpCache := st.httpCache.set specifier headers content }
            (st1, .ok (.module specifier.toStr (some headers) content))

structure FetchOptions where
  cacheSetting : Option CacheSetting
  checksum : Option String
deriving DecidableEq

/-- `FileFetcher.#resolveOptions`. -/
def resolveOptions (env : FetchEnv) (options : Option FetchOptions) :
    CacheSetting × Option String :=
  let o := options.getD ⟨none, none⟩
  (o.cacheSetting.getD env.cacheSetting, o.checksum)

/-- `FileFetcher.fetchOnce`. -/
def fetchOnce (env : FetchEnv) (st : FetcherState) (specifier : Url)
    (options : Option FetchOptions) :
    FetcherState × Except FetchError (Option LoadResponse) :=
  match getValidatedScheme specifier with
  | .error e => (st, .error e)
  | .ok scheme =>
      if scheme = "file:" then (st, fetchLocal env specifier)
      else
        match st.memo specifier with
        | some response => (st, .ok (some response))
        | none =>
            let (cacheSetting, checksum) := resolveOptions env options
            if scheme = "data:" ∨ scheme = "blob:" then
              match fetchBlobDataUrl env st specifier cacheSetting checksum with
              | (st1, .error e) => (st1, .error e)
              | (st1, .ok response) =>
                  ({ st1 with memo := memoSet st1.memo specifier response },
                   .ok (some response))
            else if !env.allowRemote then
              (st, .error (.permissionDenied specifier.toStr))
            else
              match fetchRemoteOnce env st specifier cacheSetting checksum with
              | (st1, .error e) => (st1, .error e)
              | (st1, .ok none) => (st1, .ok none)
              | (st1, .ok (some response)) =>
                  ({ st1 with memo := memoSet st1.memo specifier response },
                   .ok (some response))

/-- The body of `FileFetcher.fetch`: the `for (let i = 0; i <= 10; i++)`
loop, with `fuel` the number of remaining iterations; the third
component counts the `fetchOnce` invocations performed. -/
def fetchLoop (env : FetchEnv) :
    FetcherState → Url → Option FetchOptions → Nat →
    FetcherState × Except FetchError (Option LoadResponse) × Nat
  | st, specifier, _, 0 => (st, .error (.tooManyRedirects specifier.toStr), 0)
  | st, specifier, options, fuel + 1 =>
      match fetchOnce env st specifier options with
      | (st1, .ok (some (.redirect s))) =>
          let (st2, res, n) := fetchLoop env st1 ⟨s⟩ options fuel
          (st2, res, n + 1)
      | (st1, r) => (st1, r, 1)

/-- `FileFetcher.fetch(specifier, options)`: eleven permitted iterations
(`i = 0 … 10`), then `Too many redirects`. -/
def FileFetcher.fetch (env : FetchEnv) (st : FetcherState) (specifier : Url)
    (cacheSetting : Option CacheSetting) :
    FetcherState × Except FetchError (Option LoadResponse) × Nat :=
  fetchLoop env st specifier (some ⟨cacheSetting, none⟩) 11

/-! ## `fetchWithRetries` (2024 version, lines 601–632)

The attempt oracle gives each `fetch` call's outcome, indexed by the
source's `iterationCount` (first attempt is `1`).  The result carries
the performed sleeps in order and the final `iterationCount`. -/

structure RetryResponse where
  status : Nat
  statusText : String
deriving DecidableEq

def RetryResponse.ok (r : RetryResponse) : Bool :=
  decide (200 ≤ r.status) && decide (r.status < 300)

def maxRetries : Nat := 3

def fwrGo (outcomes : Nat → Except String RetryResponse)
    (iterationCount sleepMs : Nat) (sleeps : List Nat) :
    Except String RetryResponse × List Nat × Nat :=
  match outcomes iterationCount with
  | .ok res =>
      if res.ok = true ∨ maxRetries < iterationCount ∨
          (400 ≤ res.status ∧ res.status < 500) then
        (.ok res, sleeps, iterationCount)
      else
        fwrGo outcomes (iterationCount + 1) (min (sleepMs * 2) 10000)
          (sleeps ++ [sleepMs])
  | .error err =>
      if maxRetries < iterationCount then (.error err, sleeps, iterationCount)
      else
        fwrGo outcomes (iterationCount + 1) (min (sleepMs * 2) 10000)
          (sleeps ++ [sleepMs])
  termination_by (maxRetries + 1) - iterationCount
  decreasing_by
    · simp only [maxRetries] at *; omega
    · simp only [maxRetries] at *; omega

/-- `fetchWithRetries(url, init)`: starts at `iterationCount = 0`
incremented on loop entry, `sleepMs = 250`. -/
def fetchWithRetries (outcomes : Nat → Except String RetryResponse) :
    Except String RetryResponse × List Nat × Nat :=
  fwrGo outcomes 1 250 []

/-- The sleep before the `(n+1)`-st retry: 250 ms doubled each attempt,
capped at 10 s. -/
def backoff (n : Nat) : Nat := min (250 * 2 ^ n) 10000

/-! ## Auxiliary definitions for the redirect-chasing analysis -/

/-- A cache state in which every lookup yields a redirect record whose
target is a non-empty http/https URL serialization. -/
def redirectOnly (cache : CacheMap) : Prop :=
  ∀ v : Url, ∃ hs content l, cache v = some (hs, content) ∧
    getHeader hs "location" = some l ∧ 0 < l.length ∧
    (Url.protocol ⟨l⟩ = "http:" ∨ Url.protocol ⟨l⟩ = "https:")

/-- A memo state holding at most redirect responses with http/https
targets (the invariant a redirect-only run preserves). -/
def memoRedirectOnly (memo : Url → Option LoadResponse) : Prop :=
  ∀ v : Url, memo v = none ∨ ∃ s, memo v = some (.redirect s) ∧
    (Url.protocol ⟨s⟩ = "http:" ∨ Url.protocol ⟨s⟩ = "https:")

/-- A concrete cache holding a ten-hop redirect chain
`https://h/0 → … → https://h/10` ending in a module entry. -/
def chainCache : CacheMap := fun u =>
  if u.str = "https://h/0" then some ([("location", "https://h/1")], [])
  else if u.str = "https://h/1" then some ([("location", "https://h/2")], [])
  else if u.str = "https://h/2" then some ([("location", "https://h/3")], [])
  else if u.str = "https://h/3" then some ([("location", "https://h/4")], [])
  else if u.str = "https://h/4" then some ([("location", "https://h/5")], [])
  else if u.str = "https://h/5" then some ([("location", "https://h/6")], [])
  else if u.str = "https://h/6" then some ([("location", "https://h/7")], [])
  else if u.str = "https://h/7" then some ([("location", "https://h/8")], [])
  else if u.str = "https://h/8" then some ([("location", "https://h/9")], [])
  else if u.str = "https://h/9" then some ([("location", "https://h/10")], [])
  else if u.str = "https://h/10" then some ([("content-type", "text/plain")], [7])
  else none

/-- An environment whose network is never consulted (all lookups hit the
cache). -/
def chainEnv : FetchEnv :=
  ⟨fun _ => .error (.network "unused"), fun _ => none, true, .use⟩

/-! ## Helper lemmas -/

theorem idxOfNewline_drop {s : List Char} {i : Nat}
    (h : idxOfNewline s = some i) : ∃ t, s.drop i = '\n' :: t := by
  induction s generalizing i with
  | nil => simp [idxOfNewline] at h
  | cons c rest ih =>
      by_cases hc : c = '\n'
      · simp [idxOfNewline, hc] at h
        exact ⟨rest, by simp [← h, hc]⟩
      · simp [idxOfNewline, hc] at h
        obtain ⟨j, hj, rfl⟩ := h
        simpa using ih hj

theorem idxOfNewline_eq_none {s : List Char} (h : '\n' ∉ s) :
    idxOfNewline s = none := by
  induction s with
  | nil => rfl
  | cons c rest ih =>
      simp only [List.mem_cons, not_or] at h
      have hc : ¬ c = '\n' := fun he => h.1 he.symm
      simp [idxOfNewline, hc, ih h.2]

theorem startsWithHashbang_newline (t : List Char) :
    startsWithHashbang ('\n' :: t) = false := by
  cases t <;> simp [startsWithHashbang]

theorem startsWithHashbang_singleton (a : Char) :
    startsWithHashbang [a] = false := rfl

theorem stripHashbang_of_false {v : List Char}
    (h : startsWithHashbang v = false) : stripHashbang v = v := by
  simp [stripHashbang, h]

theorem stripHashbangBytes_of_false {v : List Char}
    (h : startsWithHashbang v = false) : stripHashbangBytes v = v := by
  simp [stripHashbangBytes, h]

/-! ## C4 — auth token host matching -/

/-- C4 counterexample: the token parsed from `abc@example.com` has host
`example.com`, which is a suffix of the request host
`evilexample.com`, yet `AuthTokens.get` returns nothing — the source
tests `token.host.endsWith(specifier.host)`, the reverse of the claimed
direction. -/
theorem authTokensGet_suffix_direction_cex :
    "example.com".toList <:+ "evilexample.com".toList ∧
    parseAuthTokens "abc@example.com".toList =
      [.bearer "example.com".toList "abc".toList] ∧
    authTokensGet (parseAuthTokens "abc@example.com".toList)
      "evilexample.com".toList = none := by
  refine ⟨by decide, by decide, by decide⟩

/-- C4 (amended): `AuthTokens.get` returns a token's Authorization value
exactly when the request URL's `host` (hostname plus any explicit port)
is a suffix of the token's configured host; with no separator check, a
token configured for `evilexample.com` matches a request to
`example.com`. -/
theorem authTokensGet_matches_reverse_suffix :
    (∀ (t : AuthToken) (specifierHost : List Char),
      authTokensGet [t] specifierHost = some (tokenAsValue t) ↔
        specifierHost <:+ t.host) ∧
    authTokensGet (parseAuthTokens "abc@evilexample.com".toList)
      "example.com".toList = some ("Bearer abc".toList) := by
  constructor
  · intro t specifierHost
    by_cases h : jsEndsWith t.host specifierHost = true
    · simp only [authTokensGet, h, if_true, true_iff]
      exact List.isSuffixOf_iff_suffix.mp h
    · simp only [authTokensGet, h, if_false, Bool.false_eq_true]
      constructor
      · intro hc
        simp [authTokensGet] at hc
      · intro hs
        exact absurd (List.isSuffixOf_iff_suffix.mpr hs) h
  · decide

/-! ## C5 — hashed filename for a URL with a query -/

set_option maxRecDepth 100000 in
/-- C5: for `https://cdn.skypack.dev/svelte/compiler?dts` the source's
`urlToFilename` concatenates `"?" + url.search` where `url.search`
already starts with `"?"`, so it hashes `/svelte/compiler??dts`,
yielding `0edb0821…` — while the repository's own test (and the claim)
expect the hash of `/svelte/compiler?dts`, `0f37079a…`, which is what
the current destination-aware encoder produces. -/
theorem urlToFilename_query_divergence :
    urlToFilename ⟨"https:", "cdn.skypack.dev", "", "/svelte/compiler", "?dts"⟩ =
      .ok "https/cdn.skypack.dev/0edb0821507f5edfd0914fd7822cd37f87d05f310cbedaef6cbe1759011ad4f4" ∧
    hashStr "/svelte/compiler?dts" =
      "0f37079a386379010b507f219d5e9e7b661a94f25a4b34742d589cf89847fc47" ∧
    url_to_filename ⟨"https:", "cdn.skypack.dev", "", "/svelte/compiler", "?dts"⟩ .script =
      .ok "https/cdn.skypack.dev/0f37079a386379010b507f219d5e9e7b661a94f25a4b34742d589cf89847fc47" := by
  refine ⟨by decide, ?_, by decide⟩
  have h : hashStr "/svelte/compiler?dts" =
      "0f37079a386379010b507f219d5e9e7b661a94f25a4b34742d589cf89847fc47" := by
    have : DenoCacheDir.hash "/svelte/compiler?dts".toList =
        "0f37079a386379010b507f219d5e9e7b661a94f25a4b34742d589cf89847fc47".toList := by
      decide
    simpa [hashStr] using congrArg String.mk this
  exact h

/-! ## C6 — the wasm scheme is refused by the cache path encoder -/

/-- C6: `wasm://wasm/d1c677ea` is refused with `UnsupportedUrl` by the
HTTP-cache path encoder — both by the source's `urlToFilename` and by
the destination-aware encoder at destination `Script`. -/
theorem url_to_filename_wasm_unsupported :
    urlToFilename ⟨"wasm:", "wasm", "", "/d1c677ea", ""⟩ =
      .error (.unsupportedUrl "wasm") ∧
    url_to_filename ⟨"wasm:", "wasm", "", "/d1c677ea", ""⟩ .script =
      .error (.unsupportedUrl "wasm") := by
  refine ⟨by decide, by decide⟩

/-! ## C9 — hashbang stripping idempotence -/

/-- C9 counterexample: the byte version of `stripHashbang` drops the
newline, so on `"#!a\n#!b\nc"` one strip yields `"#!b\nc"`, which again
begins with `"#!"`; stripping twice differs from stripping once. -/
theorem stripHashbangBytes_not_idempotent :
    stripHashbangBytes (stripHashbangBytes "#!a\n#!b\nc".toList) ≠
      stripHashbangBytes "#!a\n#!b\nc".toList := by decide

theorem idxOfNewline_ne_none_of_mem {y : List Char} (h : '\n' ∈ y) :
    idxOfNewline y ≠ none := by
  induction y with
  | nil => simp at h
  | cons c rest ih =>
      by_cases hc : c = '\n'
      · simp [idxOfNewline, hc]
      · rcases List.mem_cons.mp h with he | hm
        · exact absurd he.symm hc
        · rcases hr : idxOfNewline rest with _ | j
          · exact absurd hr (ih hm)
          · simp [idxOfNewline, hc, hr]

theorem mem_newline_of_idxOfNewline_some {y : List Char} {i : Nat}
    (h : idxOfNewline y = some i) : '\n' ∈ y := by
  obtain ⟨t, ht⟩ := idxOfNewline_drop h
  exact List.drop_subset i y (by rw [ht]; exact List.mem_cons_self '\n' t)

theorem idxOfNewline_pos_of_hashbang {y : List Char} {i : Nat}
    (hb : startsWithHashbang y = true) (h : idxOfNewline y = some i) :
    0 < i := by
  cases y with
  | nil => simp [startsWithHashbang] at hb
  | cons c1 tl =>
      cases tl with
      | nil => simp [startsWithHashbang] at hb
      | cons c2 rest =>
          have hc1 : c1 = '#' := by
            by_cases h1 : c1 = '#'
            · exact h1
            · simp [startsWithHashbang, h1] at hb
          subst hc1
          have hne : ¬ (('#' : Char) = '\n') := by decide
          have hstep : idxOfNewline ('#' :: c2 :: rest) =
              (idxOfNewline (c2 :: rest)).map (· + 1) := by
            rw [idxOfNewline, if_neg hne]
          rw [hstep] at h
          rcases hr : idxOfNewline (c2 :: rest) with _ | j
          · rw [hr] at h; simp at h
          · rw [hr] at h
            simp at h
            omega

theorem drop_succ_ne_self {y : List Char} (i : Nat) (hy : y ≠ []) :
    y.drop (i + 1) ≠ y := by
  intro h
  have hlen := congrArg List.length h
  rw [List.length_drop] at hlen
  have hpos : 0 < y.length := List.length_pos.mpr hy
  omega

/-- Fixpoint characterization of the byte version: a value is left
unchanged exactly when it does not both begin with `"#!"` and contain a
newline. -/
theorem stripHashbangBytes_fixpoint (y : List Char) :
    stripHashbangBytes y = y ↔
      ¬(startsWithHashbang y = true ∧ '\n' ∈ y) := by
  by_cases hb : startsWithHashbang y = true
  · rcases hnl : idxOfNewline y with _ | i
    · have hmem : '\n' ∉ y := fun hm => idxOfNewline_ne_none_of_mem hm hnl
      simp [stripHashbangBytes, hb, hnl, hmem]
    · have hpos := idxOfNewline_pos_of_hashbang hb hnl
      have hmem := mem_newline_of_idxOfNewline_some hnl
      have hy : y ≠ [] := by
        cases y with
        | nil => simp [startsWithHashbang] at hb
        | cons a t => simp
      have hdrop : y.drop (i + 1) ≠ y := drop_succ_ne_self i hy
      simp [stripHashbangBytes, hb, hnl, hpos, hmem, hdrop]
  · have hb' : startsWithHashbang y = false := by simpa using hb
    simp [stripHashbangBytes_of_false hb', hb']

/-- C9 (amended): the older string version of `stripHashbang` (which
keeps the newline) is idempotent on every input; the newer byte version
is idempotent at an input exactly when its stripped result does not
both begin with `"#!"` and contain a newline (an unstrippable result is
a fixpoint, so a second strip changes nothing; a strippable one is
stripped again). -/
theorem stripHashbang_idempotent :
    (∀ value : List Char,
      stripHashbang (stripHashbang value) = stripHashbang value) ∧
    (∀ value : List Char,
      stripHashbangBytes (stripHashbangBytes value) = stripHashbangBytes value ↔
        ¬(startsWithHashbang (stripHashbangBytes value) = true ∧
          '\n' ∈ stripHashbangBytes value)) := by
  constructor
  · intro value
    by_cases hb : startsWithHashbang value = true
    · rcases hnl : idxOfNewline value with _ | i
      · have hlen : 2 ≤ value.length := by
          cases value with
          | nil => simp [startsWithHashbang] at hb
          | cons c1 tl =>
              cases tl with
              | nil => simp [startsWithHashbang] at hb
              | cons c2 rest => simp
        have h1 : (value.drop (value.length - 1)).length = 1 := by
          rw [List.length_drop]; omega
        have h2 : stripHashbang value = value.drop (value.length - 1) := by
          simp [stripHashbang, hb, hnl]
        rw [h2]
        rcases hv : value.drop (value.length - 1) with _ | ⟨a, tl⟩
        · rw [hv] at h1; simp at h1
        · rcases tl with _ | ⟨b, tl2⟩
          · exact stripHashbang_of_false (startsWithHashbang_singleton a)
          · rw [hv] at h1; simp at h1
      · obtain ⟨t, ht⟩ := idxOfNewline_drop hnl
        have h2 : stripHashbang value = value.drop i := by
          simp [stripHashbang, hb, hnl]
        rw [h2, ht]
        exact stripHashbang_of_false (startsWithHashbang_newline t)
    · have hb' : startsWithHashbang value = false := by simpa using hb
      simp [stripHashbang_of_false hb']
  · intro value
    exact stripHashbangBytes_fixpoint (stripHashbangBytes value)

/-- C9 witness: the amended idempotence applied at `"#!x\ny"` (string
version) and at `"#!x\ny"` (byte version, whose stripped result `"y"`
has no hashbang, so the equivalence yields idempotence there). -/
theorem stripHashbang_idempotent_witness :
    stripHashbang (stripHashbang "#!x\ny".toList) = stripHashbang "#!x\ny".toList ∧
    stripHashbangBytes (stripHashbangBytes "#!x\ny".toList) =
      stripHashbangBytes "#!x\ny".toList :=
  ⟨stripHashbang_idempotent.1 "#!x\ny".toList,
   (stripHashbang_idempotent.2 "#!x\ny".toList).mpr (by decide)⟩

/-! ## C10 — hashbang without a newline is retained -/

/-- C10: if the content begins with `"#!"` but contains no newline, the
byte version of `stripHashbang` returns it unchanged. -/
theorem stripHashbangBytes_no_newline (value : List Char)
    (hb : startsWithHashbang value = true) (hnl : '\n' ∉ value) :
    stripHashbangBytes value = value := by
  simp [stripHashbangBytes, hb, idxOfNewline_eq_none hnl]

/-- C10 witness: `"#!abc"` begins with a hashbang, has no newline, and
is returned unchanged. -/
theorem stripHashbangBytes_no_newline_witness :
    stripHashbangBytes "#!abc".toList = "#!abc".toList :=
  stripHashbangBytes_no_newline "#!abc".toList (by decide) (by decide)

/-! ## C1 — set/get round trip on the HTTP cache -/

theorem ne_append_metadata (p : String) : p ≠ p ++ ".metadata.json" := by
  intro h
  have hlen := congrArg String.length h
  rw [String.length_append] at hlen
  have h14 : (".metadata.json" : String).length = 14 := rfl
  omega

/-- C1: on a writable cache, `HttpCache.set(U, D, H, B)` followed by
`HttpCache.get(U, D)` with no checksum returns the entry `{H, B}` —
the headers exactly as given (hence equal on lowercased keys) and the
identical content bytes. -/
theorem httpCache_set_then_get (c : HttpCacheTs) (wpd : Bool) (fs : Fs)
    (url : JsUrl) (destination : Destination)
    (headers : List (String × String)) (content : List Nat) (p : String)
    (hro : c.resolveReadOnly wpd = false)
    (hp : url_to_filename url destination = .ok p) :
    ∃ fs', HttpCacheTs.set c wpd fs url destination headers content =
        .ok (⟨some false⟩, fs') ∧
      HttpCacheTs.get fs' url destination none =
        .ok (some ⟨headers, content⟩) := by
  refine ⟨((fs.write p (.content content)).write (p ++ ".metadata.json")
    (.metadata ⟨url.href, headers⟩)), ?_, ?_⟩
  · simp [HttpCacheTs.set, hro, GlobalHttpCache.set, hp, bind, Except.bind, pure, Except.pure]
  · have hne : ¬ (p = p ++ ".metadata.json") := ne_append_metadata p
    simp [HttpCacheTs.get, GlobalHttpCache.get, hp, bind, Except.bind, Fs.write, hne,
      pure, Except.pure]

set_option maxRecDepth 100000 in
/-- C1 witness: the round trip at
`https://deno.land/std/http/file_server.ts`, destination `Script`, on a
writable cache starting from the empty store. -/
theorem httpCache_set_then_get_witness :
    ∃ fs', HttpCacheTs.set ⟨some false⟩ false Fs.empty
        ⟨"https:", "deno.land", "", "/std/http/file_server.ts", ""⟩ .script
        [("content-type", "application/typescript")] [1, 2, 3] =
        .ok (⟨some false⟩, fs') ∧
      HttpCacheTs.get fs'
        ⟨"https:", "deno.land", "", "/std/http/file_server.ts", ""⟩ .script none =
        .ok (some ⟨[("content-type", "application/typescript")], [1, 2, 3]⟩) :=
  httpCache_set_then_get ⟨some false⟩ false Fs.empty
    ⟨"https:", "deno.land", "", "/std/http/file_server.ts", ""⟩ .script
    [("content-type", "application/typescript")] [1, 2, 3]
    "https/deno.land/d8300752800fe3f0beda9505dc1c3b5388beb1ee45afd1f1e2c9fc0866df15cf"
    rfl (by decide)

/-! ## C8 — read-only mode performs no writes -/

/-- C8: with `readOnly` resolved to `true` (set explicitly, or probed as
write-permission-denied on the first mutation), `HttpCache.set` returns
silently with the store unchanged — on the global and the local backing
store alike — and a local-cache read with the global-to-local copy
disabled (it is `!readOnly` at construction) returns without touching
any state. -/
theorem readOnly_writes_nothing (c : HttpCacheTs) (wpd : Bool) (fs : Fs)
    (url : JsUrl) (destination : Destination)
    (headers : List (String × String)) (content : List Nat)
    (hro : c.resolveReadOnly wpd = true) :
    HttpCacheTs.set c wpd fs url destination headers content = .ok (⟨some true⟩, fs) ∧
    (∀ st : LocalCacheState,
      HttpCacheTs.setLocal c wpd st url destination headers content = (⟨some true⟩, st)) ∧
    (∀ (st : LocalCacheState) (checksum : Option String),
      LocalHttpCache.get st false url destination checksum =
        .ok (lookupLocal st.localMap (url, destination), st)) := by
  refine ⟨?_, ?_, ?_⟩
  · simp [HttpCacheTs.set, hro]
  · intro st
    simp [HttpCacheTs.setLocal, hro]
  · intro st checksum
    unfold LocalHttpCache.get
    rcases h : lookupLocal st.localMap (url, destination) with _ | e <;> simp [h]

/-- C8 witness: a cache constructed without an explicit flag probes the
denied write permission, resolves to read-only, and leaves the empty
global store and an empty local store untouched. -/
theorem readOnly_writes_nothing_witness :
    HttpCacheTs.set ⟨none⟩ true Fs.empty
      ⟨"https:", "deno.land", "", "/x/a.ts", ""⟩ .script [] [] =
      .ok (⟨some true⟩, Fs.empty) ∧
    HttpCacheTs.setLocal ⟨none⟩ true ⟨[], Fs.empty⟩
      ⟨"https:", "deno.land", "", "/x/a.ts", ""⟩ .script [] [] =
      (⟨some true⟩, ⟨[], Fs.empty⟩) ∧
    LocalHttpCache.get ⟨[], Fs.empty⟩ false
      ⟨"https:", "deno.land", "", "/x/a.ts", ""⟩ .script none =
      .ok (none, ⟨[], Fs.empty⟩) := by
  have h := readOnly_writes_nothing ⟨none⟩ true Fs.empty
    ⟨"https:", "deno.land", "", "/x/a.ts", ""⟩ .script [] [] rfl
  exact ⟨h.1, h.2.1 ⟨[], Fs.empty⟩, h.2.2 ⟨[], Fs.empty⟩ none⟩

/-! ## C7 — retry/backoff policy of `fetchWithRetries` -/

theorem backoff_succ (n : Nat) : min (backoff n * 2) 10000 = backoff (n + 1) := by
  unfold backoff
  rw [pow_succ]
  omega

theorem fwrGo_spec4 (o : Nat → Except String RetryResponse) (acc : List Nat) :
    ∃ r, fwrGo o 4 (backoff 3) acc = (r, acc, 4) := by
  unfold fwrGo
  rcases h : o 4 with e | res <;> simp [h, maxRetries]

theorem fwrGo_spec3 (o : Nat → Except String RetryResponse) (acc : List Nat) :
    ∃ n r, 3 ≤ n ∧ n ≤ 4 ∧
      fwrGo o 3 (backoff 2) acc =
        (r, acc ++ (List.range' 2 (n - 3)).map backoff, n) := by
  have step : ∃ n r, 3 ≤ n ∧ n ≤ 4 ∧
      fwrGo o 4 (min (backoff 2 * 2) 10000) (acc ++ [backoff 2]) =
        (r, acc ++ (List.range' 2 (n - 3)).map backoff, n) := by
    rw [backoff_succ]
    obtain ⟨r, hr⟩ := fwrGo_spec4 o (acc ++ [backoff 2])
    exact ⟨4, r, by omega, by omega, by simpa [List.range'] using hr⟩
  unfold fwrGo
  rcases h : o 3 with e | res
  · simp only [h, maxRetries]
    split
    · next hgt => omega
    · exact step
  · simp only [h, maxRetries]
    split
    · next hret => exact ⟨3, .ok res, by omega, by omega, by simp⟩
    · exact step

theorem fwrGo_spec2 (o : Nat → Except String RetryResponse) (acc : List Nat) :
    ∃ n r, 2 ≤ n ∧ n ≤ 4 ∧
      fwrGo o 2 (backoff 1) acc =
        (r, acc ++ (List.range' 1 (n - 2)).map backoff, n) := by
  have step : ∃ n r, 2 ≤ n ∧ n ≤ 4 ∧
      fwrGo o 3 (min (backoff 1 * 2) 10000) (acc ++ [backoff 1]) =
        (r, acc ++ (List.range' 1 (n - 2)).map backoff, n) := by
    rw [backoff_succ]
    obtain ⟨n, r, hn3, hn4, hr⟩ := fwrGo_spec3 o (acc ++ [backoff 1])
    refine ⟨n, r, by omega, hn4, ?_⟩
    rw [hr, List.append_assoc]
    have : (1 : Nat) :: List.range' 2 (n - 3) = List.range' 1 (n - 2) := by
      have h2 : n - 2 = (n - 3) + 1 := by omega
      rw [h2, List.range'_succ]
    simp [← this]
  unfold fwrGo
  rcases h : o 2 with e | res
  · simp only [h, maxRetries]
    split
    · next hgt => omega
    · exact step
  · simp only [h, maxRetries]
    split
    · next hret => exact ⟨2, .ok res, by omega, by omega, by simp⟩
    · exact step

theorem fwrGo_spec1 (o : Nat → Except String RetryResponse) (acc : List Nat) :
    ∃ n r, 1 ≤ n ∧ n ≤ 4 ∧
      fwrGo o 1 (backoff 0) acc =
        (r, acc ++ (List.range' 0 (n - 1)).map backoff, n) := by
  have step : ∃ n r, 1 ≤ n ∧ n ≤ 4 ∧
      fwrGo o 2 (min (backoff 0 * 2) 10000) (acc ++ [backoff 0]) =
        (r, acc ++ (List.range' 0 (n - 1)).map backoff, n) := by
    rw [backoff_succ]
    obtain ⟨n, r, hn2, hn4, hr⟩ := fwrGo_spec2 o (acc ++ [backoff 0])
    refine ⟨n, r, by omega, hn4, ?_⟩
    rw [hr, List.append_assoc]
    have : (0 : Nat) :: List.range' 1 (n - 2) = List.range' 0 (n - 1) := by
      have h2 : n - 1 = (n - 2) + 1 := by omega
      rw [h2, List.range'_succ]
    simp [← this]
  unfold fwrGo
  rcases h : o 1 with e | res
  · simp only [h, maxRetries]
    split
    · next hgt => omega
    · exact step
  · simp only [h, maxRetries]
    split
    · next hret => exact ⟨1, .ok res, by omega, by omega, by simp⟩
    · exact step

/-- C7: `fetchWithRetries` makes at most 4 total attempts (at most 3
retries), sleeping `min(250 · 2^i, 10000)` ms before the `(i+1)`-st
retry (250 ms doubled each attempt, capped at 10 s); a first response
with a 4xx status is returned immediately with no retry and no sleep;
and three consecutive failures are all retried before the error of the
fourth attempt is surfaced. -/
theorem fetchWithRetries_spec (outcomes : Nat → Except String RetryResponse) :
    (∃ n r, 1 ≤ n ∧ n ≤ 4 ∧
      fetchWithRetries outcomes = (r, (List.range (n - 1)).map backoff, n)) ∧
    (∀ res, outcomes 1 = .ok res → 400 ≤ res.status → res.status < 500 →
      fetchWithRetries outcomes = (.ok res, [], 1)) ∧
    (∀ e, (∀ k, outcomes k = .error e) →
      fetchWithRetries outcomes = (.error e, [250, 500, 1000], 4)) := by
  refine ⟨?_, ?_, ?_⟩
  · obtain ⟨n, r, h1, h4, hr⟩ := fwrGo_spec1 outcomes []
    refine ⟨n, r, h1, h4, ?_⟩
    have h250 : (250 : Nat) = backoff 0 := by simp [backoff]
    rw [fetchWithRetries, h250, hr, List.range_eq_range']
    simp
  · intro res h1 h400 h500
    rw [fetchWithRetries]
    unfold fwrGo
    simp [h1, h400, h500]
  · intro e he
    rw [fetchWithRetries]
    unfold fwrGo
    rw [he 1]
    simp only [maxRetries]
    split
    · next hgt => omega
    · unfold fwrGo
      rw [he 2]
      simp only [maxRetries]
      split
      · next hgt => omega
      · unfold fwrGo
        rw [he 3]
        simp only [maxRetries]
        split
        · next hgt => omega
        · unfold fwrGo
          rw [he 4]
          simp only [maxRetries]
          split
          · next hgt => norm_num
          · next hle => omega

/-- C7 witness: with a first attempt answering 404, the call returns it
immediately after one attempt and no sleep. -/
theorem fetchWithRetries_spec_witness :
    fetchWithRetries (fun _ => .ok ⟨404, "Not Found"⟩) =
      (.ok ⟨404, "Not Found"⟩, [], 1) :=
  (fetchWithRetries_spec (fun _ => .ok ⟨404, "Not Found"⟩)).2.1
    ⟨404, "Not Found"⟩ rfl (by decide) (by decide)

/-! ## C3 — redirect chasing ceiling -/

theorem getValidatedScheme_http {u : Url}
    (hu : Url.protocol u = "http:" ∨ Url.protocol u = "https:") :
    getValidatedScheme u = .ok (Url.protocol u) := by
  rcases hu with h | h <;> simp [getValidatedScheme, SUPPORTED_SCHEMES, h]

theorem fetchRemoteOnce_cached_redirect (env : FetchEnv) (st : FetcherState)
    (v : Url) (c : CacheSetting) (hc : c = .use ∨ c = .only)
    (hs' : List (String × String)) (content : List Nat) (l : String)
    (hcv : st.httpCache v = some (hs', content))
    (hl : getHeader hs' "location" = some l) (hllen : 0 < l.length) :
    fetchRemoteOnce env st v c none = (st, .ok (some (.redirect l))) := by
  have hsuc : shouldUseCache c v = true := by rcases hc with rfl | rfl <;> rfl
  have hfc : fetchCachedOnce st v none = .ok (some (.redirect l)) := by
    simp [fetchCachedOnce, cacheMapGet, hcv, hl, hllen, bind, Except.bind,
      pure, Except.pure, resolveUrl, Url.toStr]
  simp [fetchRemoteOnce, hsuc, hfc]

theorem fetchOnce_step_redirect (env : FetchEnv) (st : FetcherState) (v : Url)
    (c : CacheSetting) (hc : c = .use ∨ c = .only)
    (hremote : env.allowRemote = true)
    (hv : Url.protocol v = "http:" ∨ Url.protocol v = "https:")
    (hm : st.memo v = none)
    (hs' : List (String × String)) (content : List Nat) (l : String)
    (hcv : st.httpCache v = some (hs', content))
    (hl : getHeader hs' "location" = some l) (hllen : 0 < l.length) :
    fetchOnce env st v (some ⟨some c, none⟩) =
      ({ st with memo := memoSet st.memo v (.redirect l) },
        .ok (some (.redirect l))) := by
  have hg := getValidatedScheme_http hv
  have hro := fetchRemoteOnce_cached_redirect env st v c hc hs' content l hcv hl hllen
  rcases hv with h | h <;>
    simp [fetchOnce, hg, h, hm, resolveOptions, hremote, hro]

theorem fetchOnce_all_redirect (env : FetchEnv) (st : FetcherState) (v : Url)
    (c : CacheSetting) (hc : c = .use ∨ c = .only)
    (hremote : env.allowRemote = true)
    (hcache : redirectOnly st.httpCache)
    (hmemo : memoRedirectOnly st.memo)
    (hv : Url.protocol v = "http:" ∨ Url.protocol v = "https:") :
    ∃ s st1, fetchOnce env st v (some ⟨some c, none⟩) =
        (st1, .ok (some (.redirect s))) ∧
      (Url.protocol ⟨s⟩ = "http:" ∨ Url.protocol ⟨s⟩ = "https:") ∧
      st1.httpCache = st.httpCache ∧ memoRedirectOnly st1.memo := by
  rcases hmemo v with hm | ⟨s, hm, hs⟩
  · obtain ⟨hs', content, l, hcv, hl, hllen, hlp⟩ := hcache v
    refine ⟨l, _, fetchOnce_step_redirect env st v c hc hremote hv hm
      hs' content l hcv hl hllen, hlp, rfl, ?_⟩
    intro w
    by_cases hw : w = v
    · exact Or.inr ⟨l, by simp [memoSet, hw], hlp⟩
    · rcases hmemo w with h | ⟨t, ht, htp⟩
      · exact Or.inl (by simp [memoSet, hw, h])
      · exact Or.inr ⟨t, by simp [memoSet, hw, ht], htp⟩
  · have hg := getValidatedScheme_http hv
    refine ⟨s, st, ?_, hs, rfl, hmemo⟩
    rcases hv with h | h <;> simp [fetchOnce, hg, h, hm]

theorem fetchLoop_all_redirect (env : FetchEnv) (c : CacheSetting)
    (hc : c = .use ∨ c = .only) (hremote : env.allowRemote = true) :
    ∀ (fuel : Nat) (st : FetcherState) (u : Url),
      redirectOnly st.httpCache → memoRedirectOnly st.memo →
      (Url.protocol u = "http:" ∨ Url.protocol u = "https:") →
      ∃ st' s', fetchLoop env st u (some ⟨some c, none⟩) fuel =
        (st', .error (.tooManyRedirects s'), fuel) := by
  intro fuel
  induction fuel with
  | zero => exact fun st u _ _ _ => ⟨st, u.toStr, rfl⟩
  | succ n ih =>
      intro st u hcache hmemo hu
      obtain ⟨s, st1, hstep, hsp, hcacheEq, hmemo1⟩ :=
        fetchOnce_all_redirect env st u c hc hremote hcache hmemo hu
      have hcache1 : redirectOnly st1.httpCache := by rw [hcacheEq]; exact hcache
      obtain ⟨st', s', hrec⟩ := ih st1 ⟨s⟩ hcache1 hmemo1 hsp
      exact ⟨st', s', by simp [fetchLoop, hstep, hrec]⟩

theorem fetchLoop_count_le (env : FetchEnv) (opts : Option FetchOptions) :
    ∀ (fuel : Nat) (st : FetcherState) (u : Url),
      (fetchLoop env st u opts fuel).2.2 ≤ fuel := by
  intro fuel
  induction fuel with
  | zero => intro st u; simp [fetchLoop]
  | succ n ih =>
      intro st u
      rcases hfo : fetchOnce env st u opts with ⟨st1, r⟩
      rcases r with e | opt
      · simp [fetchLoop, hfo]
      · rcases opt with _ | lr
        · simp [fetchLoop, hfo]
        · rcases lr with ⟨sp, hd, ct⟩ | sp
          · simp [fetchLoop, hfo]
          · rcases hrec : fetchLoop env st1 ⟨sp⟩ opts n with ⟨st2, res, k⟩
            have hk : k ≤ n := by
              have h := ih st1 ⟨sp⟩
              rw [hrec] at h
              exact h
            simp [fetchLoop, hfo, hrec]
            omega

/-- C3 counterexample: with a cached chain of ten redirect records
`https://h/0 → … → https://h/10` ending in a module entry, `fetch`
succeeds after invoking `fetchOnce` eleven times — the loop runs
`i = 0 … 10` — contradicting the claimed ceiling of ten invocations. -/
theorem fetch_eleven_invocations :
    (FileFetcher.fetch chainEnv ⟨fun _ => none, chainCache⟩ ⟨"https://h/0"⟩
        (some .use)).2 =
      (.ok (some (.module "https://h/10" (some [("content-type", "text/plain")])
        [7])), 11) := by
  decide

/-- C3 (amended): `fetch` invokes `fetchOnce` at most eleven times (loop
indices 0…10), substituting the redirect target as the new URL on each
redirect result; if every permitted iteration yields a redirect (more
than ten redirect hops), it fails with `Too many redirects` after
exactly eleven invocations. -/
theorem fetch_redirect_ceiling (env : FetchEnv) (st : FetcherState) (u : Url)
    (c : CacheSetting) (hc : c = .use ∨ c = .only)
    (hremote : env.allowRemote = true)
    (hcache : redirectOnly st.httpCache)
    (hmemo : memoRedirectOnly st.memo)
    (hu : Url.protocol u = "http:" ∨ Url.protocol u = "https:") :
    (∀ (env' : FetchEnv) (st' : FetcherState) (u' : Url)
      (c' : Option CacheSetting),
      (FileFetcher.fetch env' st' u' c').2.2 ≤ 11) ∧
    ∃ st' s', FileFetcher.fetch env st u (some c) =
      (st', .error (.tooManyRedirects s'), 11) := by
  constructor
  · intro env' st' u' c'
    exact fetchLoop_count_le env' (some ⟨c', none⟩) 11 st' u'
  · exact fetchLoop_all_redirect env c hc hremote 11 st u hcache hmemo hu

/-- C3 witness: a cache redirecting every URL to `https://h/0` makes
`fetch` fail with `Too many redirects` after eleven invocations, and the
invocation bound holds there. -/
theorem fetch_redirect_ceiling_witness :
    (FileFetcher.fetch chainEnv
      ⟨fun _ => none, fun _ => some ([("location", "https://h/0")], [])⟩
      ⟨"https://h/0"⟩ (some .use)).2.2 ≤ 11 ∧
    ∃ st' s', FileFetcher.fetch chainEnv
      ⟨fun _ => none, fun _ => some ([("location", "https://h/0")], [])⟩
      ⟨"https://h/0"⟩ (some .use) =
      (st', .error (.tooManyRedirects s'), 11) := by
  have h := fetch_redirect_ceiling chainEnv
    ⟨fun _ => none, fun _ => some ([("location", "https://h/0")], [])⟩
    ⟨"https://h/0"⟩ .use (Or.inl rfl) rfl
    (fun v => ⟨[("location", "https://h/0")], [], "https://h/0", rfl, rfl,
      by decide, Or.inr (by decide)⟩)
    (fun v => Or.inl rfl) (Or.inr (by decide))
  exact ⟨h.1 chainEnv _ _ _, h.2⟩

/-! ## C2 — cache-only misses and use-then-only round trips -/

theorem fetchRemoteOnce_only_miss (env : FetchEnv) (st : FetcherState) (u : Url)
    (hcache : st.httpCache u = none) :
    fetchRemoteOnce env st u .only none = (st, .error (.notFound u.toStr)) := by
  have hfc : fetchCachedOnce st u none = .ok none := by
    simp [fetchCachedOnce, cacheMapGet, hcache, bind, Except.bind, pure, Except.pure]
  simp [fetchRemoteOnce, shouldUseCache, hfc]

theorem fetchOnce_only_miss (env : FetchEnv) (st : FetcherState) (u : Url)
    (hu : Url.protocol u = "http:" ∨ Url.protocol u = "https:")
    (hremote : env.allowRemote = true)
    (hm : st.memo u = none) (hcache : st.httpCache u = none) :
    fetchOnce env st u (some ⟨some .only, none⟩) =
      (st, .error (.notFound u.toStr)) := by
  have hg := getValidatedScheme_http hu
  rcases hu with h | h <;>
    simp [fetchOnce, hg, h, hm, resolveOptions, hremote,
      fetchRemoteOnce_only_miss env st u hcache]

theorem fetchCachedOnce_module (st : FetcherState) (u : Url)
    (hs : List (String × String)) (content : List Nat)
    (hcv : st.httpCache u = some (hs, content))
    (hloc : ∀ v, getHeader hs "location" = some v → v = "") :
    fetchCachedOnce st u none =
      .ok (some (.module u.toStr (some hs) content)) := by
  rcases hl : getHeader hs "location" with _ | v
  · simp [fetchCachedOnce, cacheMapGet, hcv, hl, bind, Except.bind, pure, Except.pure]
  · have hv := hloc v hl
    subst hv
    simp [fetchCachedOnce, cacheMapGet, hcv, hl, bind, Except.bind, pure, Except.pure]

theorem fetchRemoteOnce_cached_module (env : FetchEnv) (st : FetcherState)
    (u : Url) (c : CacheSetting) (hc : c = .use ∨ c = .only)
    (hs : List (String × String)) (content : List Nat)
    (hcv : st.httpCache u = some (hs, content))
    (hloc : ∀ v, getHeader hs "location" = some v → v = "") :
    fetchRemoteOnce env st u c none =
      (st, .ok (some (.module u.toStr (some hs) content))) := by
  have hsuc : shouldUseCache c u = true := by rcases hc with rfl | rfl <;> rfl
  simp [fetchRemoteOnce, hsuc, fetchCachedOnce_module st u hs content hcv hloc]

theorem fetchOnce_cached_module (env : FetchEnv) (st : FetcherState) (u : Url)
    (c : CacheSetting) (hc : c = .use ∨ c = .only)
    (hu : Url.protocol u = "http:" ∨ Url.protocol u = "https:")
    (hremote : env.allowRemote = true) (hm : st.memo u = none)
    (hs : List (String × String)) (content : List Nat)
    (hcv : st.httpCache u = some (hs, content))
    (hloc : ∀ v, getHeader hs "location" = some v → v = "") :
    fetchOnce env st u (some ⟨some c, none⟩) =
      ({ st with memo := (memoSet st.memo u
          (.module u.toStr (some hs) content)) },
        .ok (some (.module u.toStr (some hs) content))) := by
  have hg := getValidatedScheme_http hu
  have hro := fetchRemoteOnce_cached_module env st u c hc hs content hcv hloc
  rcases hu with h | h <;>
    simp [fetchOnce, hg, h, hm, resolveOptions, hremote, hro]

theorem Url.eta (v : Url) : (⟨v.str⟩ : Url) = v := rfl

theorem fetchRemoteOnce_use_net (env : FetchEnv) (st : FetcherState) (u : Url)
    (r : FetchResponse)
    (hcache : st.httpCache u = none)
    (hnet : env.net u = .ok r) (hok : r.ok = true) :
    fetchRemoteOnce env st u .use none =
      ({ st with httpCache :=
          ((if u ≠ r.url then st.httpCache.set u [("location", r.url.toStr)] []
            else st.httpCache).set r.url (lowerHeaders r.headers) r.body) },
        .ok (some (.module r.url.toStr (some (lowerHeaders r.headers)) r.body))) := by
  have hfc : fetchCachedOnce st u none = .ok none := by
    simp [fetchCachedOnce, cacheMapGet, hcache, bind, Except.bind, pure, Except.pure]
  by_cases hne : u = r.url
  · subst hne
    simp [fetchRemoteOnce, shouldUseCache, hfc, hnet, hok]
  · simp [fetchRemoteOnce, shouldUseCache, hfc, hnet, hok, hne]

theorem fetchOnce_use_net (env : FetchEnv) (st : FetcherState) (u : Url)
    (r : FetchResponse)
    (hu : Url.protocol u = "http:" ∨ Url.protocol u = "https:")
    (hremote : env.allowRemote = true)
    (hm : st.memo u = none) (hcache : st.httpCache u = none)
    (hnet : env.net u = .ok r) (hok : r.ok = true) :
    fetchOnce env st u (some ⟨some .use, none⟩) =
      ({ memo := (memoSet st.memo u
          (.module r.url.toStr (some (lowerHeaders r.headers)) r.body)),
         httpCache :=
          ((if u ≠ r.url then st.httpCache.set u [("location", r.url.toStr)] []
            else st.httpCache).set r.url (lowerHeaders r.headers) r.body) },
        .ok (some (.module r.url.toStr (some (lowerHeaders r.headers)) r.body))) := by
  have hg := getValidatedScheme_http hu
  have hro := fetchRemoteOnce_use_net env st u r hcache hnet hok
  rcases hu with h | h <;>
    simp [fetchOnce, hg, h, hm, resolveOptions, hremote, hro]

theorem fetchLoop_of_error (env : FetchEnv) (st : FetcherState) (u : Url)
    (opts : Option FetchOptions) (fuel : Nat) (st1 : FetcherState)
    (e : FetchError) (h : fetchOnce env st u opts = (st1, .error e)) :
    fetchLoop env st u opts (fuel + 1) = (st1, .error e, 1) := by
  simp [fetchLoop, h]

theorem fetchLoop_of_module (env : FetchEnv) (st : FetcherState) (u : Url)
    (opts : Option FetchOptions) (fuel : Nat) (st1 : FetcherState)
    (sp : String) (hd : Option (List (String × String))) (ct : List Nat)
    (h : fetchOnce env st u opts = (st1, .ok (some (.module sp hd ct)))) :
    fetchLoop env st u opts (fuel + 1) =
      (st1, .ok (some (.module sp hd ct)), 1) := by
  simp [fetchLoop, h]

theorem fetchLoop_of_redirect (env : FetchEnv) (st : FetcherState) (u : Url)
    (opts : Option FetchOptions) (fuel : Nat) (st1 : FetcherState) (s : String)
    (h : fetchOnce env st u opts = (st1, .ok (some (.redirect s)))) :
    fetchLoop env st u opts (fuel + 1) =
      ((fetchLoop env st1 ⟨s⟩ opts fuel).1,
        (fetchLoop env st1 ⟨s⟩ opts fuel).2.1,
        (fetchLoop env st1 ⟨s⟩ opts fuel).2.2 + 1) := by
  rcases hrec : fetchLoop env st1 ⟨s⟩ opts fuel with ⟨st2, res, k⟩
  simp [fetchLoop, h, hrec]

/-- C2: on an http/https URL `U` with no cache entry, `fetch` with cache
setting `"only"` fails with `NotFound`; fetching `U` with `"use"`
populates the cache (a redirect record at `U` when the client landed
elsewhere, the final entry at `response.url`) and returns a `Module`;
a subsequent `"only"` fetch (fresh memo, same cache) returns that same
`Module`. -/
theorem fetch_only_then_use_then_only (env : FetchEnv) (st : FetcherState)
    (u : Url) (r : FetchResponse)
    (hu : Url.protocol u = "http:" ∨ Url.protocol u = "https:")
    (hru : Url.protocol r.url = "http:" ∨ Url.protocol r.url = "https:")
    (hremote : env.allowRemote = true)
    (hm : st.memo u = none)
    (hcache : st.httpCache u = none)
    (hnet : env.net u = .ok r)
    (hok : r.ok = true)
    (hloc : ∀ v, getHeader (lowerHeaders r.headers) "location" = some v → v = "")
    (hstr : 0 < r.url.str.length) :
    (FileFetcher.fetch env st u (some .only)).2 =
      (.error (.notFound u.toStr), 1) ∧
    ∃ st1, FileFetcher.fetch env st u (some .use) =
        (st1, .ok (some (.module r.url.toStr (some (lowerHeaders r.headers))
          r.body)), 1) ∧
      (FileFetcher.fetch env ⟨fun _ => none, st1.httpCache⟩ u (some .only)).2.1 =
        .ok (some (.module r.url.toStr (some (lowerHeaders r.headers)) r.body)) := by
  refine ⟨?_, ?_⟩
  · have h1 := fetchOnce_only_miss env st u hu hremote hm hcache
    exact congrArg Prod.snd
      (fetchLoop_of_error env st u (some ⟨some .only, none⟩) 10 st
        (.notFound u.toStr) h1)
  · have h1 := fetchOnce_use_net env st u r hu hremote hm hcache hnet hok
    by_cases hne : u = r.url
    · subst hne
      have h1' : fetchOnce env st r.url (some ⟨some .use, none⟩) =
          (⟨(memoSet st.memo r.url
              (.module r.url.toStr (some (lowerHeaders r.headers)) r.body)),
            (st.httpCache.set r.url (lowerHeaders r.headers) r.body)⟩,
           .ok (some (.module r.url.toStr (some (lowerHeaders r.headers))
             r.body))) := by
        simpa using h1
      refine ⟨_, fetchLoop_of_module env st r.url (some ⟨some .use, none⟩)
        10 _ _ _ _ h1', ?_⟩
      have hcv : (st.httpCache.set r.url (lowerHeaders r.headers) r.body) r.url =
          some (lowerHeaders r.headers, r.body) := by
        simp [CacheMap.set]
      have h2 := fetchOnce_cached_module env
        ⟨fun _ => none, (st.httpCache.set r.url (lowerHeaders r.headers) r.body)⟩
        r.url .only (Or.inr rfl) hru hremote rfl
        (lowerHeaders r.headers) r.body hcv hloc
      have hl2 := fetchLoop_of_module env
        ⟨fun _ => none, (st.httpCache.set r.url (lowerHeaders r.headers) r.body)⟩
        r.url (some ⟨some .only, none⟩) 10 _ _ _ _ h2
      exact congrArg (fun q => q.2.1) hl2
    · have h1' : fetchOnce env st u (some ⟨some .use, none⟩) =
          (⟨(memoSet st.memo u
              (.module r.url.toStr (some (lowerHeaders r.headers)) r.body)),
            ((st.httpCache.set u [("location", r.url.str)] []).set r.url
              (lowerHeaders r.headers) r.body)⟩,
           .ok (some (.module r.url.toStr (some (lowerHeaders r.headers))
             r.body))) := by
        simpa [hne, Url.toStr] using h1
      refine ⟨_, fetchLoop_of_module env st u (some ⟨some .use, none⟩)
        10 _ _ _ _ h1', ?_⟩
      have hcu : ((st.httpCache.set u [("location", r.url.str)] []).set r.url
            (lowerHeaders r.headers) r.body) u =
          some ([("location", r.url.str)], []) := by
        simp [CacheMap.set, hne, Ne.symm hne]
      have hcr : ((st.httpCache.set u [("location", r.url.str)] []).set r.url
            (lowerHeaders r.headers) r.body) r.url =
          some (lowerHeaders r.headers, r.body) := by
        simp [CacheMap.set]
      have h2 := fetchOnce_step_redirect env
        ⟨fun _ => none, ((st.httpCache.set u [("location", r.url.str)] []).set
          r.url (lowerHeaders r.headers) r.body)⟩ u .only (Or.inr rfl)
        hremote hu rfl [("location", r.url.str)] [] r.url.str hcu rfl hstr
      have h3 := fetchOnce_cached_module env
        ⟨(memoSet (fun _ => none) u (.redirect r.url.str)),
          ((st.httpCache.set u [("location", r.url.str)] []).set r.url
            (lowerHeaders r.headers) r.body)⟩ r.url .only
        (Or.inr rfl) hru hremote (by simp [memoSet, Ne.symm hne])
        (lowerHeaders r.headers) r.body hcr hloc
      have hl1 := fetchLoop_of_redirect env
        ⟨fun _ => none, ((st.httpCache.set u [("location", r.url.str)] []).set
          r.url (lowerHeaders r.headers) r.body)⟩ u (some ⟨some .only, none⟩)
        10 _ (r.url.str) h2
      have hl2 := fetchLoop_of_module env
        ⟨(memoSet (fun _ => none) u (.redirect r.url.str)),
          ((st.httpCache.set u [("location", r.url.str)] []).set r.url
            (lowerHeaders r.headers) r.body)⟩ ⟨r.url.str⟩
        (some ⟨some .only, none⟩) 9 _ _ _ _ (by rw [Url.eta]; exact h3)
      calc (FileFetcher.fetch env
              ⟨fun _ => none, ((st.httpCache.set u [("location", r.url.str)] []).set
                r.url (lowerHeaders r.headers) r.body)⟩ u (some .only)).2.1
          = (fetchLoop env
              ⟨(memoSet (fun _ => none) u (.redirect r.url.str)),
                ((st.httpCache.set u [("location", r.url.str)] []).set r.url
                  (lowerHeaders r.headers) r.body)⟩ ⟨r.url.str⟩
              (some ⟨some .only, none⟩) 10).2.1 := by
            rw [show (FileFetcher.fetch env
              ⟨fun _ => none, ((st.httpCache.set u [("location", r.url.str)] []).set
                r.url (lowerHeaders r.headers) r.body)⟩ u (some .only)) =
              fetchLoop env
              ⟨fun _ => none, ((st.httpCache.set u [("location", r.url.str)] []).set
                r.url (lowerHeaders r.headers) r.body)⟩ u
              (some ⟨some .only, none⟩) 11 from rfl, hl1]
        _ = .ok (some (.module r.url.toStr (some (lowerHeaders r.headers))
              r.body)) := by rw [hl2]

/-- C2 witness: fetching `https://y/` against a client that lands at
`https://x/` with status 200 and no headers: the cache-only fetch fails
with `NotFound`, the `"use"` fetch returns the module at `https://x/`,
and the subsequent cache-only fetch returns the same module. -/
theorem fetch_only_then_use_then_only_witness :
    (FileFetcher.fetch
        ⟨fun _ => .ok ⟨⟨"https://x/"⟩, 200, "OK", [], [5]⟩, fun _ => none, true, .use⟩
        ⟨fun _ => none, fun _ => none⟩ ⟨"https://y/"⟩ (some .only)).2 =
      (.error (.notFound "https://y/"), 1) ∧
    ∃ st1, FileFetcher.fetch
        ⟨fun _ => .ok ⟨⟨"https://x/"⟩, 200, "OK", [], [5]⟩, fun _ => none, true, .use⟩
        ⟨fun _ => none, fun _ => none⟩ ⟨"https://y/"⟩ (some .use) =
        (st1, .ok (some (.module "https://x/" (some []) [5])), 1) ∧
      (FileFetcher.fetch
        ⟨fun _ => .ok ⟨⟨"https://x/"⟩, 200, "OK", [], [5]⟩, fun _ => none, true, .use⟩
        ⟨fun _ => none, st1.httpCache⟩ ⟨"https://y/"⟩ (some .only)).2.1 =
      .ok (some (.module "https://x/" (some []) [5])) := by
  have h := fetch_only_then_use_then_only
    ⟨fun _ => .ok ⟨⟨"https://x/"⟩, 200, "OK", [], [5]⟩, fun _ => none, true, .use⟩
    ⟨fun _ => none, fun _ => none⟩ ⟨"https://y/"⟩ ⟨⟨"https://x/"⟩, 200, "OK", [], [5]⟩
    (Or.inr (by decide)) (Or.inr (by decide)) rfl rfl rfl rfl (by decide)
    (fun v hv => by simp [lowerHeaders, getHeader] at hv) (by decide)
  simpa [lowerHeaders] using h

end DenoCacheDir
